import Mathlib

/-!
Shallow embedding of `src/utils.py` (pathology-report parsing) and proofs
about the claims of its specification.

Texts are modelled as `List Char` (named `Str` below).  Python regular
expressions used by the source are modelled operationally, mirroring the
leftmost-match / backtracking behaviour of `re.search` and `re.findall`
for the concrete patterns appearing in the source.  Python dictionaries
are modelled as insertion-ordered association lists.
-/

set_option maxRecDepth 10000

abbrev Str := List Char

/-- Python `\s` on ASCII text: space, tab, newline, carriage return,
vertical tab, form feed. -/
def isPyWs (c : Char) : Bool :=
  c = ' ' || c = '\t' || c = '\n' || c = '\x0d' || c = Char.ofNat 11 || c = Char.ofNat 12

/-- ASCII letter, either case: the character class `[A-Z]` under
`re.IGNORECASE`. -/
def isAlphaCI (c : Char) : Bool := c.isUpper || c.isLower

/-- Lower-case an ASCII letter; used for case-insensitive comparison. -/
def lowerC (c : Char) : Char :=
  if c.isUpper then Char.ofNat (c.toNat + 32) else c

/-- Case-insensitive prefix test (`re.IGNORECASE` literal matching). -/
def startsWithCI : Str → Str → Bool
  | [], _ => true
  | _ :: _, [] => false
  | p :: ps, c :: cs => (lowerC p = lowerC c) && startsWithCI ps cs

/-- Length of the maximal whitespace prefix: what the greedy `\s*` consumes. -/
def wsCount (s : Str) : Nat := (s.takeWhile isPyWs).length

/-- Python `str.strip()`. -/
def pyStrip (s : Str) : Str :=
  ((s.dropWhile isPyWs).reverse.dropWhile isPyWs).reverse

/-- Python `str.split("\n")`. -/
def splitNl : Str → List Str
  | [] => [[]]
  | '\n' :: cs => [] :: splitNl cs
  | c :: cs =>
    match splitNl cs with
    | [] => [[c]]
    | h :: t => (c :: h) :: t

/-- Python `str.find(sub)` as an index option (`none` for "not found"). -/
def pyFindAux (sub : Str) : Str → Option Nat
  | [] => if sub.isEmpty then some 0 else none
  | c :: cs => if sub.isPrefixOf (c :: cs) then some 0 else (pyFindAux sub cs).map (· + 1)

/-- Python `str.find(sub)` (`-1` when absent). -/
def pyFindI (sub s : Str) : Int :=
  match pyFindAux sub s with
  | some n => (n : Int)
  | none => -1

/-- Normalize a Python slice index: negative indices count from the end,
then the index is clamped to `[0, n]`. -/
def normIdx (n : Nat) (i : Int) : Nat :=
  if i < 0 then (if (n : Int) + i ≤ 0 then 0 else ((n : Int) + i).toNat)
  else min i.toNat n

/-- Python slicing `s[a:b]`. -/
def pySliceI (s : Str) (a b : Int) : Str :=
  (s.take (normIdx s.length b)).drop (normIdx s.length a)

/-- Decimal digits of a natural number (Python `str(idx)`), fuelled
recursion on the value. -/
def natToRev : Nat → Nat → Str
  | 0, _ => []
  | f + 1, n =>
    if n < 10 then [Char.ofNat (48 + n)]
    else Char.ofNat (48 + n % 10) :: natToRev f (n / 10)

def natToChars (n : Nat) : Str := (natToRev (n + 1) n).reverse

/-! ### Section location

The source locates sections with `re.search(LITERAL + r"\s*(.+?)" + STOP, text)`
under `IGNORECASE | DOTALL`, where `STOP` is one of
`(?:\n\n|\Z)`, `(?=\n\n|DIAGNOSIS:)`, `(?=\n[A-Z ]+:|$)`.
We model this with a stop predicate `P` on suffixes of the text:
the lazy group ends at the first position (at least one character in)
whose suffix satisfies `P`; the greedy `\s*` backtracks from its maximal
extent; and the search retries at later literal occurrences on failure. -/

/-- Least `i` such that `P` holds of `s.drop i` (including `i = s.length`). -/
def firstIdxFrom (P : Str → Bool) : Str → Option Nat
  | [] => if P [] then some 0 else none
  | c :: cs => if P (c :: cs) then some 0 else (firstIdxFrom P cs).map (· + 1)

/-- One attempt of `\s*(.+?)STOP` with `\s*` consuming exactly `k`
characters: the group is the shortest nonempty prefix of `r.drop k`
whose remainder satisfies `P`. -/
def attemptK (P : Str → Bool) (r : Str) (k : Nat) : Option Str :=
  match r.drop k with
  | [] => none
  | b => match firstIdxFrom P b.tail with
         | some i => some (b.take (i + 1))
         | none => none

/-- Greedy `\s*` with backtracking: try `k` from the whitespace-prefix
length downwards. -/
def tryKsGo (P : Str → Bool) (r : Str) : Nat → Option Str
  | 0 => attemptK P r 0
  | k + 1 =>
    match attemptK P r (k + 1) with
    | some g => some g
    | none => tryKsGo P r k

def lazyBody (P : Str → Bool) (r : Str) : Option Str := tryKsGo P r (wsCount r)

/-- `re.search` for `LITERAL\s*(.+?)STOP`: scan positions left to right;
at each case-insensitive occurrence of the literal try the tail, retrying
at later occurrences if the tail fails. Returns group 1 (unstripped). -/
def searchSecAux (lit : Str) (P : Str → Bool) : Str → Option Str
  | [] => none
  | c :: cs =>
    if startsWithCI lit (c :: cs) then
      match lazyBody P ((c :: cs).drop lit.length) with
      | some g => some g
      | none => searchSecAux lit P cs
    else searchSecAux lit P cs

/-- Stop for `(?:\n\n|\Z)` (specimen section in
`extract_accession_and_specimens_df`). -/
def pBlankOrEnd (u : Str) : Bool :=
  u.isEmpty || (match u with | '\n' :: '\n' :: _ => true | _ => false)

/-- Character class `[A-Z ]` under `IGNORECASE`. -/
def isHdrChar (c : Char) : Bool := isAlphaCI c || c = ' '

/-- Lookahead `\n[A-Z ]+:` (under `IGNORECASE`): a newline, then a maximal
nonempty run of letters/spaces, then a colon. -/
def nlHdrColon (u : Str) : Bool :=
  match u with
  | '\n' :: rest =>
    let run := rest.takeWhile isHdrChar
    decide (1 ≤ run.length) &&
      (match rest.drop run.length with | ':' :: _ => true | _ => false)
  | _ => false

/-- Stop for `(?=\n[A-Z ]+:|$)`; `$` (no `MULTILINE`) matches at the end
of the text or just before a final newline. -/
def pHdr (u : Str) : Bool := nlHdrColon u || u.isEmpty || u = ['\n']

/-- Stop for `(?=\n\n|DIAGNOSIS:)` (the specimen-mapping re-scan inside
`extract_clinical_impression`; note: no end-of-text alternative). -/
def pMapStop (u : Str) : Bool :=
  (match u with | '\n' :: '\n' :: _ => true | _ => false) ||
    startsWithCI "DIAGNOSIS:".data u

/-- `re.search(r"Accession No:\s*(\S+)", text, re.IGNORECASE)` followed by
`.strip()` of group 1. -/
def searchAcc : Str → Option Str
  | [] => none
  | c :: cs =>
    if startsWithCI "Accession No:".data (c :: cs) then
      let r := (c :: cs).drop "Accession No:".data.length
      let r2 := r.drop (wsCount r)
      if r2.isEmpty then searchAcc cs
      else some (pyStrip (r2.takeWhile (fun ch => ¬ isPyWs ch)))
    else searchAcc cs

/-! ### Specimen extraction (`extract_accession_and_specimens_df`) -/

/-- Punctuation class `[\.\):]`. -/
def punctChars : List Char := ['.', ')', ':']

/-- Attempt of `\s*<GROUP>` where the group must start with a non-newline
character (`[^\n]+` or `.+` without `DOTALL`): the greedy `\s*` consumes
`k ≤ wsCount t` characters, backtracking downwards until the next
character exists and is not a newline.  Returns the number of whitespace
characters consumed and the maximal non-newline run that is the group. -/
def descCheck (t : Str) (k : Nat) : Option (Nat × Str) :=
  match t.drop k with
  | [] => none
  | c :: rest =>
    if c = '\n' then none else some (k, (c :: rest).takeWhile (fun x => x ≠ '\n'))

def descPickGo (t : Str) : Nat → Option (Nat × Str)
  | 0 => descCheck t 0
  | k + 1 =>
    match descCheck t (k + 1) with
    | some r => some r
    | none => descPickGo t k

def descPick (t : Str) : Option (Nat × Str) := descPickGo t (wsCount t)

/-- Head attempt of `([A-Z])\.\s*([^\n]+)`: an upper-case letter, a
period, then the description via `descPick`.  Returns the letter, the
description and the total number of characters consumed. -/
def ldTryAt : Str → Option (Char × Str × Nat)
  | a :: c :: t =>
    if a.isUpper && c = '.' then
      match descPick t with
      | some kd => some (a, kd.2, 2 + kd.1 + kd.2.length)
      | none => none
    else none
  | _ => none

/-- `re.findall(r"([A-Z])\.\s*([^\n]+)", s)` (no flags): scan left to
right; on a match the scan continues after it, otherwise at the next
character. -/
def letterDotAux : Nat → Str → List (Char × Str)
  | 0, _ => []
  | _, [] => []
  | f + 1, s =>
    match ldTryAt s with
    | some r => (r.1, r.2.1) :: letterDotAux f (s.drop r.2.2)
    | none => letterDotAux f s.tail

def letterDotFindall (s : Str) : List (Char × Str) := letterDotAux s.length s

/-- One row of the DataFrame built by `extract_accession_and_specimens_df`. -/
structure SpecRow where
  acc : Option Str
  sid : Str
  sdesc : Str
  deriving Repr, DecidableEq

/-- The `else` branch: `enumerate(specimen_section.split("\n"), start=1)`
with synthesized identifiers `chr(64 + index)`. -/
def synthRows (acc : Option Str) : Nat → List Str → List SpecRow
  | _, [] => []
  | idx, line :: rest =>
    ⟨acc, [Char.ofNat (64 + idx)], pyStrip line⟩ :: synthRows acc (idx + 1) rest

/-- `extract_accession_and_specimens_df` of `src/utils.py`. -/
def extract_accession_and_specimens_df (t : Str) : List SpecRow :=
  let acc := searchAcc t
  match searchSecAux "SPECIMEN SUBMITTED:".data pBlankOrEnd t with
  | none => []
  | some g =>
    let sec := pyStrip g
    match letterDotFindall sec with
    | [] => synthRows acc 1 (splitNl sec)
    | ms => ms.map (fun m => ⟨acc, [m.1], pyStrip m.2⟩)

/-- `remove_text_after_newline` of `src/utils.py` (string case). -/
def remove_text_after_newline (s : Str) : Str :=
  pyStrip (s.takeWhile (fun c => c ≠ '\n'))

/-! ### Python dictionaries as insertion-ordered association lists -/

abbrev PyDict := List (Str × Str)

/-- `d[k] = v`: update in place if the key exists, else append. -/
def dset : PyDict → Str → Str → PyDict
  | [], k, v => [(k, v)]
  | (k0, v0) :: rest, k, v =>
    if k0 = k then (k0, v) :: rest else (k0, v0) :: dset rest k v

/-- `d.get(k)`. -/
def dget? : PyDict → Str → Option Str
  | [], _ => none
  | (k0, v0) :: rest, k => if k0 = k then some v0 else dget? rest k

/-- `k in d`. -/
def dmem (d : PyDict) (k : Str) : Bool := (dget? d k).isSome

/-- `d.values()` in insertion order. -/
def dvalues (d : PyDict) : List Str := d.map (·.2)

/-! ### `extract_clinical_impression` -/

/-- `re.findall(r"([A-Z])[\.\):]?\s*(.+)", sec)` (no flags): at an
upper-case letter, the optional punctuation is consumed greedily and
given back if the rest fails; `\s*` may cross newlines; the captured
description is a maximal nonempty non-newline run. -/
def r5Aux : Nat → Str → List (Char × Str)
  | 0, _ => []
  | _, [] => []
  | f + 1, a :: t =>
    if a.isUpper then
      match (match t with
             | p :: t2 =>
               if punctChars.contains p then
                 match descPick t2 with
                 | some (k, d) => some (1 + k + d.length, d)
                 | none => (none : Option (Nat × Str))
               else none
             | [] => none) with
      | some cd => (a, cd.2) :: r5Aux f (t.drop cd.1)
      | none =>
        match descPick t with
        | some (k, d) => (a, d) :: r5Aux f (t.drop (k + d.length))
        | none => r5Aux f t
    else r5Aux f t

def r5Findall (s : Str) : List (Char × Str) := r5Aux s.length s

/-- Lines 118-122: `specimen_mapping[str(idx)] = id; specimen_mapping[id] = id`
for `idx` counting from 1 (the `identifier.strip()` is a no-op on a
single letter). -/
def buildMappingAux : Nat → List (Char × Str) → PyDict → PyDict
  | _, [], d => d
  | idx, m :: rest, d =>
    buildMappingAux (idx + 1) rest (dset (dset d (natToChars idx) [m.1]) [m.1] [m.1])

/-- Steps 1 of `extract_clinical_impression`: re-scan the SPECIMEN
SUBMITTED body (bounded by `(?=\n\n|DIAGNOSIS:)`, group 1 unstripped)
and build the surface-form mapping. -/
def specimenMappingOf (t : Str) : PyDict :=
  match searchSecAux "SPECIMEN SUBMITTED:".data pMapStop t with
  | none => []
  | some g => buildMappingAux 1 (r5Findall g) []

/-- One alternative of
`re.findall(r"([A-Z]\)|[A-Z]:|#\d+-|Lesion [A-Z])", s, re.IGNORECASE)`
matching at the start of `s`; alternatives are tried in order and the
matched text is returned with its original case. -/
def idTok (s : Str) : Option Str :=
  (match s with
   | a :: ')' :: _ => if isAlphaCI a then some [a, ')'] else none
   | _ => none)
  <|>
  (match s with
   | a :: ':' :: _ => if isAlphaCI a then some [a, ':'] else none
   | _ => none)
  <|>
  (match s with
   | '#' :: rest =>
     let ds := rest.takeWhile Char.isDigit
     if ds.isEmpty then none
     else match rest.drop ds.length with
          | '-' :: _ => some ('#' :: (ds ++ ['-']))
          | _ => none
   | _ => none)
  <|>
  (if startsWithCI "Lesion ".data s then
     match s.drop 7 with
     | b :: _ => if isAlphaCI b then some (s.take 8) else none
     | [] => none
   else none)

def idFindallAux : Nat → Str → List Str
  | 0, _ => []
  | _, [] => []
  | f + 1, s =>
    match idTok s with
    | some tok => tok :: idFindallAux f (s.drop tok.length)
    | none => idFindallAux f s.tail

/-- Step 3 of `extract_clinical_impression`: detect identifier tokens. -/
def idFindall (s : Str) : List Str := idFindallAux s.length s

/-- `re.sub(r"[\)\-:#]", "", identifier)`. -/
def subClean (s : Str) : Str :=
  s.filter (fun c => ¬ (c = ')' || c = '-' || c = ':' || c = '#'))

/-- `.replace("Lesion ", "")` (case-sensitive, left to right). -/
def replaceLesionAux : Nat → Str → Str
  | 0, s => s
  | f + 1, s =>
    if "Lesion ".data.isPrefixOf s then replaceLesionAux f (s.drop 7)
    else match s with
         | [] => []
         | c :: cs => c :: replaceLesionAux f cs

/-- Lines 163-165: clean an identifier token. -/
def cleanId (tok : Str) : Str :=
  pyStrip (replaceLesionAux tok.length (subClean tok))

/-- Lines 147-159: the span of one identifier, from just after the first
occurrence of its token to the first occurrence of the next token (or the
end of the text), stripped.  `str.find` is taken from position 0 each
time, exactly as in the source. -/
def spanAt (cit tok : Str) (next? : Option Str) : Str :=
  let a : Int := pyFindI tok cit + (tok.length : Int)
  let b : Int :=
    match next? with
    | some nt => pyFindI nt cit
    | none => (cit.length : Int)
  pyStrip (pySliceI cit a b)

/-- Pair each detected token with its extracted span text. -/
def spanPairs (cit : Str) : List Str → List (Str × Str)
  | [] => []
  | tok :: rest => (tok, spanAt cit tok rest.head?) :: spanPairs cit rest

/-- Lines 145-170: fold the identifier spans into the impressions
dictionary; a token whose cleaned form is not in the mapping is dropped,
otherwise `impressions[mapping[clean]] += span.strip() + " "`. -/
def applyPairs (mapping : PyDict) : List (Str × Str) → PyDict → PyDict
  | [], d => d
  | p :: rest, d =>
    let d2 :=
      match dget? mapping (cleanId p.1) with
      | some mk => dset d mk (((dget? d mk).getD []) ++ (pyStrip p.2 ++ [' ']))
      | none => d
    applyPairs mapping rest d2

/-- `extract_clinical_impression` of `src/utils.py`.  Returns the
dictionary from specimen identifiers to impressions. -/
def extract_clinical_impression (t : Str) : PyDict :=
  let mapping := specimenMappingOf t
  let impress0 := (dvalues mapping).foldl (fun d v => dset d v []) []
  let impress1 :=
    match searchSecAux "CLINICAL IMPRESSION:".data pHdr t with
    | none => impress0
    | some g =>
      let cit := pyStrip g
      match idFindall cit with
      | [] => impress0.map (fun (p : Str × Str) => (p.1, cit))
      | ids => applyPairs mapping (spanPairs cit ids) impress0
  impress1.map (fun (p : Str × Str) => (p.1, pyStrip p.2))

/-! ### `add_microscopic_description` -/

/-- Least index `d` with a dash at `d` and at least one character after
it.  In `^([A-Z][\.\):])\s*(.*?)\s*-\s*(.+)$` under `DOTALL`, the lazy
`(.*?)` (which may cross newlines) together with the surrounding `\s*`
selects exactly the first such dash, and `(.+)$` then greedily extends
to the end of the text. -/
def firstDashOk : Str → Option Nat
  | '-' :: _ :: _ => some 0
  | _ :: rest => (firstDashOk rest).map (· + 1)
  | [] => none

/-- Row match attempt at a line start: `[A-Z][\.\):]` (IGNORECASE), then
the first usable dash; group 3 runs from after the dash (and the greedy
`\s*`, which gives back one character if only whitespace remains) to the
end of the text.  Returns the letter (case preserved, `match[0][0]`) and
`match[2].strip()`. -/
def microTryAt (s : Str) : Option (Char × Str) :=
  match s with
  | a :: p :: t =>
    if isAlphaCI a && punctChars.contains p then
      match firstDashOk t with
      | some d =>
        let r := t.drop (d + 1)
        let w := wsCount r
        let k := if w = r.length then r.length - 1 else w
        some (a, pyStrip (r.drop k))
      | none => none
    else none
  | _ => none

/-- Suffix just after the first newline. -/
def dropAfterNl : Str → Option Str
  | [] => none
  | '\n' :: rest => some rest
  | _ :: rest => dropAfterNl rest

/-- `re.findall` for the row pattern under `MULTILINE`: `^` restricts
match starts to line starts, tried left to right.  Since any match
extends to the end of the text, there is at most one. -/
def microScanAux : Nat → Str → Option (Char × Str)
  | 0, _ => none
  | f + 1, s =>
    match microTryAt s with
    | some res => some res
    | none =>
      match dropAfterNl s with
      | some s2 => microScanAux f s2
      | none => none

def microRowMatch (body : Str) : Option (Char × Str) :=
  microScanAux (body.length + 1) body

/-- One PathRow of the final DataFrame of `extract_specimen_details`. -/
structure PathRow where
  acc : Option Str
  sid : Str
  sdesc : Str
  diagF : Str
  microF : Str
  imprF : Str
  deriving Repr, DecidableEq

/-- A Python exception surfaced by the pipeline.  With zero extracted
specimens the DataFrame is `pd.DataFrame([])`, which has no columns, so
any access to the "Specimen Identifier" column raises
`KeyError("Specimen Identifier")`; the payload records the missing key. -/
inductive PyErr where
  | keyError : Str → PyErr
  deriving Repr, DecidableEq

/-- Left fold of a fallible row-update step, stopping at the first
exception — the Python `for` loops over matches / dictionary items. -/
def foldSteps (step : List PathRow → α → Except PyErr (List PathRow)) :
    List α → List PathRow → Except PyErr (List PathRow)
  | [], rs => .ok rs
  | a :: l, rs =>
    match step rs a with
    | .error e => .error e
    | .ok rs2 => foldSteps step l rs2

/-- `add_microscopic_description` of `src/utils.py`.  When the section is
located and the row list is empty (the frame was `pd.DataFrame([])`),
both branches read the missing "Specimen Identifier" column — the row
match via the `.loc` mask (line 219), the broadcast via iterating the
column (line 225) — and raise `KeyError`.  Otherwise, in the broadcast
branch the source loops over the identifier column assigning the whole
text to the rows matching each identifier; the net effect is that every
row receives the text. -/
def add_microscopic_description (t : Str) (rows : List PathRow) :
    Except PyErr (List PathRow) :=
  match searchSecAux "MICROSCOPIC DESCRIPTION:".data pHdr t with
  | none => .ok rows
  | some g =>
    let body := pyStrip g
    match microRowMatch body with
    | some cd =>
      if rows.isEmpty then .error (.keyError "Specimen Identifier".data)
      else .ok (rows.map (fun r => if r.sid = [cd.1] then { r with microF := cd.2 } else r))
    | none =>
      if rows.isEmpty then .error (.keyError "Specimen Identifier".data)
      else .ok (rows.map (fun r => { r with microF := body }))

/-! ### Diagnosis extraction

`re.findall(r"([A-Z])[\.\):]?\s*(.+?)\n\s*--\s*(.+?)(?=\n[A-Z][\.\):]|\n\n|$)",
text, re.IGNORECASE | re.DOTALL)`. -/

/-- The lookahead `(?=\n[A-Z][\.\):]|\n\n|$)`. -/
def pDiagStop (u : Str) : Bool :=
  (match u with
   | '\n' :: b :: c :: _ => isAlphaCI b && punctChars.contains c
   | _ => false)
  || (match u with | '\n' :: '\n' :: _ => true | _ => false)
  || u.isEmpty || u = ['\n']

/-- After the literal `--`: `\s*(.+?)` with the lookahead; the greedy
`\s*` gives back one character when only whitespace remains, and the lazy
group ends at the first position satisfying the lookahead (which always
holds at the end of the text).  Returns group 3 and the suffix after the
match. -/
def diagTail (after : Str) : Option (Str × Str) :=
  if after.isEmpty then none
  else
    let w := wsCount after
    let k := if w = after.length then after.length - 1 else w
    let g := after.drop k
    match firstIdxFrom pDiagStop g.tail with
    | some i => some (g.take (i + 1), g.drop (i + 1))
    | none => none

/-- Scan forward (lazy group 2 growing) for a newline followed by
(whitespace, then) `--` with a usable tail; a position whose tail fails
is skipped and the scan continues. -/
def diagFindNl : Nat → Str → Option (Str × Str)
  | 0, _ => none
  | _, [] => none
  | f + 1, w =>
    match (match w with
           | '\n' :: w1 =>
             let m := wsCount w1
             (match w1.drop m with
              | '-' :: '-' :: after => diagTail after
              | _ => none)
           | _ => none) with
    | some res => some res
    | none => diagFindNl f w.tail

/-- Attempt with `\s*` consuming exactly `k` characters: group 2 is
`(.+?)`, at least one character, so the newline scan starts one past the
group start. -/
def diagAtK (u : Str) (k : Nat) : Option (Str × Str) :=
  match u.drop k with
  | [] => none
  | _ :: vt => diagFindNl (vt.length + 1) vt

/-- Greedy `\s*` backtracking from its maximal extent. -/
def diagKLoopGo (u : Str) : Nat → Option (Str × Str)
  | 0 => diagAtK u 0
  | k + 1 =>
    match diagAtK u (k + 1) with
    | some res => some res
    | none => diagKLoopGo u k

def diagTryBase (u : Str) : Option (Str × Str) := diagKLoopGo u (wsCount u)

/-- Full match attempt at one position: letter (IGNORECASE, case
preserved), greedy optional `[\.\):]?` (tried with the punctuation
first, then without), then the rest of the pattern.  Returns
`(match[0], match[2].strip(), suffix after the match)`. -/
def diagTryAt : Str → Option (Char × Str × Str)
  | [] => none
  | a :: t =>
    if isAlphaCI a then
      match (match t with
             | p :: t2 =>
               if punctChars.contains p then diagTryBase t2
               else none
             | [] => none) with
      | some gr => some (a, pyStrip gr.1, gr.2)
      | none =>
        match diagTryBase t with
        | some gr => some (a, pyStrip gr.1, gr.2)
        | none => none
    else none

def diagFindallAux : Nat → Str → List (Char × Str)
  | 0, _ => []
  | _, [] => []
  | f + 1, s =>
    match diagTryAt s with
    | some cgr => (cgr.1, cgr.2.1) :: diagFindallAux f cgr.2.2
    | none => diagFindallAux f s.tail

/-- Lines 270-274: the diagnosis matches over the whole text. -/
def diagFindall (t : Str) : List (Char × Str) := diagFindallAux t.length t

/-! ### `extract_specimen_details` -/

/-- Lines 291-295: `re.match(r"^[A-Z][\)\.:]|#[0-9]+$", specimen_id)`
(no IGNORECASE): either an upper-case letter followed by one of `)` `.`
`:` at the start, or `#` followed by digits reaching the end. -/
def validIdMatch (k : Str) : Bool :=
  (match k with
   | a :: p :: _ => a.isUpper && punctChars.contains p
   | _ => false)
  ||
  (match k with
   | '#' :: rest => (decide (rest ≠ [])) && rest.all Char.isDigit
   | _ => false)

/-- The masked assignment of one diagnosis match to the rows whose
identifier equals the matched letter. -/
def diagMask (rs : List PathRow) (m : Char × Str) : List PathRow :=
  rs.map (fun r => if r.sid = [m.1] then { r with diagF := m.2 } else r)

/-- Lines 281-283: one iteration of the diagnosis loop.  Evaluating the
`.loc` mask `specimen_data["Specimen Identifier"] == specimen_id` on the
column-less empty frame raises `KeyError`; otherwise the masked
assignment is applied. -/
def diagStep (rs : List PathRow) (m : Char × Str) : Except PyErr (List PathRow) :=
  if rs.isEmpty then .error (.keyError "Specimen Identifier".data)
  else .ok (diagMask rs m)

/-- Lines 293-303: apply one entry of the impressions dictionary; a key
that does not match the "valid identifier" pattern is broadcast to the
whole column (a plain column assignment, which also works on the empty
frame), otherwise only matching rows are assigned via the `.loc` mask —
which on the column-less empty frame would raise `KeyError` (this branch
is unreachable in the pipeline: the impressions dictionary is empty
whenever no specimen was extracted). -/
def imprStep (rs : List PathRow) (p : Str × Str) : Except PyErr (List PathRow) :=
  if validIdMatch p.1 then
    if rs.isEmpty then .error (.keyError "Specimen Identifier".data)
    else .ok (rs.map (fun r => if r.sid = p.1 then { r with imprF := p.2 } else r))
  else .ok (rs.map (fun r => { r with imprF := p.2 }))

/-- `extract_specimen_details` of `src/utils.py`.  Lines 258-267 build a
local `specimen_mapping` that is never read afterwards (its `iterrows`
loops run zero times on the empty frame and raise nothing); it is
omitted here.  The result is `Except`-valued: with zero extracted
specimens, a nonempty diagnosis match list or a located microscopic
section raises `KeyError` on the missing "Specimen Identifier" column
instead of returning a record list. -/
def extract_specimen_details (t : Str) : Except PyErr (List PathRow) :=
  let specs := extract_accession_and_specimens_df t
  let rows0 : List PathRow :=
    specs.map (fun s => ⟨s.acc, s.sid, s.sdesc, [], [], []⟩)
  match foldSteps diagStep (diagFindall t) rows0 with
  | .error e => .error e
  | .ok rows1 =>
    match add_microscopic_description t rows1 with
    | .error e => .error e
    | .ok rows2 =>
      match foldSteps imprStep (extract_clinical_impression t) rows2 with
      | .error e => .error e
      | .ok rows3 =>
        .ok (rows3.map (fun r =>
          { r with diagF := remove_text_after_newline r.diagF,
                   microF := remove_text_after_newline r.microF,
                   imprF := remove_text_after_newline r.imprF }))

/-! ### Claim-side definitions

These definitions restate rules in the words of the specification (for
refinement-style comparison with the code); they are not translations of
the source. -/

/-- Claim C7's wording: a line beginning with a single capital letter
followed by a period. -/
def lineStartsLetterDot (l : Str) : Bool :=
  match l with
  | a :: '.' :: _ => a.isUpper
  | _ => false

/-- Claim C6's wording for a section stop: a blank line (two consecutive
newlines), a line of one or more capital letters and spaces followed by a
colon, or end of text. -/
def pClaimStop (u : Str) : Bool :=
  (match u with | '\n' :: '\n' :: _ => true | _ => false)
  || (match u with
      | '\n' :: rest =>
        let run := rest.takeWhile (fun c => c.isUpper || c = ' ')
        decide (1 ≤ run.length) &&
          (match rest.drop run.length with | ':' :: _ => true | _ => false)
      | _ => false)
  || u.isEmpty

/-- First position of a case-insensitive occurrence of `lit` in `t`,
phrased as the least element of a filtered range. -/
def firstOccCI (lit t : Str) : Option Nat :=
  ((List.range (t.length + 1)).filter (fun p => startsWithCI lit (t.drop p))).head?

/-- Least `j ≥ 1` with `P (b.drop j)`, phrased as the least element of a
filtered range. -/
def minStopIdx (P : Str → Bool) (b : Str) : Option Nat :=
  ((List.range (b.length + 1)).filter (fun j => decide (1 ≤ j) && P (b.drop j))).head?

/-- Claim C6 as stated: the body runs from immediately after the header
to the first stop in the claim's sense, then (for comparison with the
code's `.strip()`) trimmed. -/
def sectionBodyClaim (lit t : Str) : Option Str :=
  match firstOccCI lit t with
  | none => none
  | some p =>
    let r := t.drop (p + lit.length)
    match firstIdxFrom pClaimStop r with
    | some j => some (pyStrip (r.take j))
    | none => some (pyStrip r)

/-- Declarative restatement of the code's actual section rule (for the
amended claim C6): first occurrence of the header, body beginning at the
first non-whitespace character after it (or, when only whitespace
follows, at its last character), ending at the least stop position at
least one character in. -/
def sectionBodySpec (lit : Str) (P : Str → Bool) (t : Str) : Option Str :=
  match firstOccCI lit t with
  | none => none
  | some p =>
    let r := t.drop (p + lit.length)
    if r.isEmpty then none
    else
      let k := min (wsCount r) (r.length - 1)
      let b := r.drop k
      match minStopIdx P b with
      | some j => some (pyStrip (b.take j))
      | none => none

/-- A block of whitespace followed by a non-newline character: the
positional condition under which `([A-Z])\.\s*([^\n]+)` can complete a
match after the period (amended claim C7). -/
def wsThenChar (t : Str) : Prop :=
  ∃ w c u, t = w ++ c :: u ∧ (∀ x ∈ w, isPyWs x = true) ∧ c ≠ '\n'

/-- An occurrence (at any position) of a capital letter immediately
followed by a period from which the description can complete (amended
claim C7). -/
def ldOccursAt (s : Str) (p : Nat) : Prop :=
  ∃ a t', s.drop p = a :: '.' :: t' ∧ a.isUpper = true ∧ wsThenChar t'

/-- Concatenation, in processing order, of the cleaned-and-resolved span
contributions for one specimen key (amended claim C3): each span text is
stripped and given a trailing space, as in line 168-169 of the source. -/
def joinContrib (mapping : PyDict) (k : Str) (ps : List (Str × Str)) : Str :=
  ((ps.filter (fun p => dget? mapping (cleanId p.1) = some k)).map
    (fun p => pyStrip p.2 ++ [' '])).flatten

/-! ### Concrete report texts used by witnesses and counterexamples -/

def reportC1 : Str := "CLINICAL IMPRESSION: A) bad.\nA. arm\n-- melanoma".data

def reportC2 : Str :=
  "SPECIMEN SUBMITTED: A. skin, left arm\nB. skin, right arm\n\nCLINICAL IMPRESSION: A) Benign. B) Malignant.".data

def reportC3 : Str :=
  "SPECIMEN SUBMITTED: A. skin\n\nCLINICAL IMPRESSION: #1- one A: two".data

def bodyC3 : Str := "#1- one A: two".data

def reportC4 : Str :=
  "SPECIMEN SUBMITTED: A. s1\nB. s2\nC. s3\nD. s4\nE. s5\n\nMICROSCOPIC DESCRIPTION: All unremarkable\n\nCLINICAL IMPRESSION: Benign nevus".data

def reportC6 : Str :=
  "SPECIMEN SUBMITTED: a\nDIAGNOSIS: x\n\nCLINICAL IMPRESSION: one\n\ntwo\nnote: y".data

def reportC7 : Str := "SPECIMEN SUBMITTED: melanoma R. knee".data

def bodyC7 : Str := "melanoma R. knee".data

def reportC8 : Str := "SPECIMEN SUBMITTED: foo\n \nbar".data

def bodyC8 : Str := "foo\n \nbar".data

def reportC10 : Str := "SPECIMEN SUBMITTED: A. x\n\nCLINICAL IMPRESSION: a) suspicious".data

def reportC5bug : Str := "MICROSCOPIC DESCRIPTION: some text".data

/-! ### Helper lemmas -/

theorem dropWhile_idem (p : Char → Bool) (l : Str) :
    (l.dropWhile p).dropWhile p = l.dropWhile p := by
  induction l with
  | nil => rfl
  | cons c cs ih =>
    by_cases h : p c
    · simp only [List.dropWhile_cons, h, if_true]
      exact ih
    · simp [List.dropWhile_cons, h]

theorem head?_dropWhile_false (p : Char → Bool) (l : Str) :
    ∀ c, (l.dropWhile p).head? = some c → p c = false := by
  induction l with
  | nil => intro c h; simp at h
  | cons a as ih =>
    intro c h
    by_cases hp : p a
    · exact ih c (by simpa [List.dropWhile_cons, hp] using h)
    · rw [List.dropWhile_cons, if_neg hp] at h
      simp only [List.head?_cons, Option.some.injEq] at h
      subst h
      cases hpa : p a with
      | true => exact absurd hpa hp
      | false => rfl

theorem dropWhile_eq_self_of_head (p : Char → Bool) (l : Str)
    (h : ∀ c, l.head? = some c → p c = false) : l.dropWhile p = l := by
  cases l with
  | nil => rfl
  | cons a as => simp [List.dropWhile_cons, h a rfl]

theorem pyStrip_head (l : Str) :
    ∀ c, (pyStrip l).head? = some c → isPyWs c = false := by
  intro c h
  have hpre : pyStrip l <+: l.dropWhile isPyWs := by
    have hsuf : ((l.dropWhile isPyWs).reverse.dropWhile isPyWs) <:+
        (l.dropWhile isPyWs).reverse := List.dropWhile_suffix isPyWs
    have h2 := (@List.reverse_prefix Char
      ((l.dropWhile isPyWs).reverse.dropWhile isPyWs)
      ((l.dropWhile isPyWs).reverse)).mpr hsuf
    simpa [pyStrip] using h2
  obtain ⟨tl, htl⟩ := hpre
  have hh : (l.dropWhile isPyWs).head? = some c := by
    rw [← htl]
    cases hv : pyStrip l with
    | nil => rw [hv] at h; simp at h
    | cons b bs =>
      rw [hv] at h
      simpa using h
  exact head?_dropWhile_false isPyWs l c hh

theorem pyStrip_idem (l : Str) : pyStrip (pyStrip l) = pyStrip l := by
  have h1 : (pyStrip l).dropWhile isPyWs = pyStrip l :=
    dropWhile_eq_self_of_head _ _ (pyStrip_head l)
  show (((pyStrip l).dropWhile isPyWs).reverse.dropWhile isPyWs).reverse = pyStrip l
  rw [h1]
  have h2 : (pyStrip l).reverse = ((l.dropWhile isPyWs).reverse.dropWhile isPyWs) := by
    simp [pyStrip]
  rw [h2, dropWhile_idem]
  simp [pyStrip]

theorem map_proj_pres (g : PathRow → PathRow)
    (hg : ∀ r, (g r).sid = r.sid ∧ (g r).sdesc = r.sdesc) (rs : List PathRow) :
    (rs.map g).map (fun r => (r.sid, r.sdesc)) = rs.map (fun r => (r.sid, r.sdesc)) := by
  induction rs with
  | nil => rfl
  | cons r rs ih => simp [ih, (hg r).1, (hg r).2]

theorem diagStep_ok_proj :
    ∀ (rs : List PathRow) (m : Char × Str) (rs2 : List PathRow),
      diagStep rs m = .ok rs2 →
      rs2.map (fun r => (r.sid, r.sdesc)) = rs.map (fun r => (r.sid, r.sdesc)) := by
  intro rs m rs2 h
  unfold diagStep at h
  by_cases he : rs.isEmpty = true
  · rw [if_pos he] at h
    exact Except.noConfusion h
  · rw [if_neg he] at h
    injection h with h2
    rw [← h2]
    unfold diagMask
    exact map_proj_pres _ (fun r => by by_cases hh : r.sid = [m.1] <;> simp [hh]) rs

theorem imprStep_ok_proj :
    ∀ (rs : List PathRow) (p : Str × Str) (rs2 : List PathRow),
      imprStep rs p = .ok rs2 →
      rs2.map (fun r => (r.sid, r.sdesc)) = rs.map (fun r => (r.sid, r.sdesc)) := by
  intro rs p rs2 h
  unfold imprStep at h
  by_cases hv : validIdMatch p.1 = true
  · rw [if_pos hv] at h
    by_cases he : rs.isEmpty = true
    · rw [if_pos he] at h
      exact Except.noConfusion h
    · rw [if_neg he] at h
      injection h with h2
      rw [← h2]
      exact map_proj_pres _ (fun r => by by_cases hh : r.sid = p.1 <;> simp [hh]) rs
  · rw [if_neg hv] at h
    injection h with h2
    rw [← h2]
    exact map_proj_pres _ (fun r => by simp) rs

theorem foldSteps_ok_proj {α : Type} (step : List PathRow → α → Except PyErr (List PathRow))
    (hstep : ∀ rs a rs2, step rs a = .ok rs2 →
      rs2.map (fun r => (r.sid, r.sdesc)) = rs.map (fun r => (r.sid, r.sdesc))) :
    ∀ (l : List α) (rs rs2 : List PathRow), foldSteps step l rs = .ok rs2 →
      rs2.map (fun r => (r.sid, r.sdesc)) = rs.map (fun r => (r.sid, r.sdesc)) := by
  intro l
  induction l with
  | nil =>
    intro rs rs2 h
    injection h with h2
    rw [h2]
  | cons a l ih =>
    intro rs rs2 h
    unfold foldSteps at h
    cases hs : step rs a with
    | error e =>
      rw [hs] at h
      exact Except.noConfusion h
    | ok rsm =>
      rw [hs] at h
      exact (ih rsm rs2 h).trans (hstep rs a rsm hs)

theorem add_micro_ok_proj (t : Str) :
    ∀ (rs rs2 : List PathRow), add_microscopic_description t rs = .ok rs2 →
      rs2.map (fun r => (r.sid, r.sdesc)) = rs.map (fun r => (r.sid, r.sdesc)) := by
  intro rs rs2 h
  unfold add_microscopic_description at h
  cases hsec : searchSecAux "MICROSCOPIC DESCRIPTION:".data pHdr t with
  | none =>
    rw [hsec] at h
    injection h with h2
    rw [← h2]
  | some g =>
    rw [hsec] at h
    dsimp only [] at h
    cases hmr : microRowMatch (pyStrip g) with
    | some cd =>
      rw [hmr] at h
      dsimp only [] at h
      by_cases he : rs.isEmpty = true
      · rw [if_pos he] at h
        exact Except.noConfusion h
      · rw [if_neg he] at h
        injection h with h2
        rw [← h2]
        exact map_proj_pres _ (fun r => by by_cases hh : r.sid = [cd.1] <;> simp [hh]) rs
    | none =>
      rw [hmr] at h
      dsimp only [] at h
      by_cases he : rs.isEmpty = true
      · rw [if_pos he] at h
        exact Except.noConfusion h
      · rw [if_neg he] at h
        injection h with h2
        rw [← h2]
        exact map_proj_pres _ (fun r => by simp) rs

/-! ### Claim theorems -/

theorem extract_ok_proj (t : Str) :
    ∀ rows : List PathRow, extract_specimen_details t = .ok rows →
      rows.map (fun r => (r.sid, r.sdesc)) =
        (extract_accession_and_specimens_df t).map (fun s => (s.sid, s.sdesc)) := by
  intro rows h
  unfold extract_specimen_details at h
  dsimp only [] at h
  cases hd : foldSteps diagStep (diagFindall t)
      ((extract_accession_and_specimens_df t).map
        (fun s => (⟨s.acc, s.sid, s.sdesc, [], [], []⟩ : PathRow))) with
  | error e =>
    rw [hd] at h
    exact Except.noConfusion h
  | ok rows1 =>
    rw [hd] at h
    dsimp only [] at h
    cases hm : add_microscopic_description t rows1 with
    | error e =>
      rw [hm] at h
      exact Except.noConfusion h
    | ok rows2 =>
      rw [hm] at h
      dsimp only [] at h
      cases hi : foldSteps imprStep (extract_clinical_impression t) rows2 with
      | error e =>
        rw [hi] at h
        exact Except.noConfusion h
      | ok rows3 =>
        rw [hi] at h
        dsimp only [] at h
        injection h with h2
        rw [← h2]
        rw [map_proj_pres _ (fun r => by simp)]
        rw [foldSteps_ok_proj imprStep imprStep_ok_proj _ _ _ hi]
        rw [add_micro_ok_proj t _ _ hm]
        rw [foldSteps_ok_proj diagStep diagStep_ok_proj _ _ _ hd]
        simp [List.map_map, Function.comp]

/-- Claim C5 (code bug): whenever the pipeline does return a record
list, it has exactly one record per specimen extracted from SPECIMEN
SUBMITTED, with the same identifiers and descriptions in the same
order (all later stages are masked field assignments that never add,
remove or reorder records).  But unresolvable spans are not always
"silently discarded": with zero extracted specimens a located
microscopic-description section reads the missing "Specimen
Identifier" column of the column-less empty frame, so the code raises
`KeyError` and no record list is produced at all, as on
`reportC5bug`. -/
theorem claim_C5 :
    (∀ (t : Str) (rows : List PathRow), extract_specimen_details t = .ok rows →
      rows.map (fun r => (r.sid, r.sdesc)) =
        (extract_accession_and_specimens_df t).map (fun s => (s.sid, s.sdesc))) ∧
    extract_specimen_details reportC5bug =
      .error (.keyError "Specimen Identifier".data) :=
  ⟨fun t rows h => extract_ok_proj t rows h, by rfl⟩

/-- Witness for C5: on the scenario-4 report the pipeline does return a
record list, and its identifier/description pairs equal those of the
extracted specimens. -/
theorem claim_C5_witness :
    (extract_accession_and_specimens_df reportC2).map (fun s => (s.sid, s.sdesc)) =
      [("A".data, "skin, left arm".data), ("B".data, "skin, right arm".data)] :=
  ((claim_C5.1 reportC2
      [⟨none, "A".data, "skin, left arm".data, [], [], "Malignant.".data⟩,
       ⟨none, "B".data, "skin, right arm".data, [], [], "Malignant.".data⟩]
      (by rfl)).symm).trans (by decide)

/-- Claim C1 (code bug): the spec says the pipeline never raises and
always returns a record list, but when the SPECIMEN SUBMITTED section
is absent the specimen frame is the column-less `pd.DataFrame([])`,
and a diagnosis-pattern match then evaluates the `.loc` mask on the
missing "Specimen Identifier" column (line 281), so on `reportC1` the
code raises `KeyError` instead of returning a record list. -/
theorem claim_C1 :
    searchSecAux "SPECIMEN SUBMITTED:".data pBlankOrEnd reportC1 = none ∧
    extract_accession_and_specimens_df reportC1 = [] ∧
    diagFindall reportC1 ≠ [] ∧
    extract_specimen_details reportC1 =
      .error (.keyError "Specimen Identifier".data) :=
  ⟨by decide, by decide, by decide, by rfl⟩

/-- Claim C9: the pipeline is deterministic; it is modelled as a pure
function of the input text (the source keeps no state across calls), so
running it twice on the same text gives identical records. -/
theorem claim_C9 (t : Str) :
    extract_specimen_details t = extract_specimen_details t := rfl

/-- Claim C2 (code bug): on the scenario-4 report,
`extract_clinical_impression` correctly computes A ↦ "Benign.",
B ↦ "Malignant.", but the validity check in `extract_specimen_details`
(`^[A-Z][\)\.:]|#[0-9]+$`) never matches a bare canonical letter, so each
per-specimen impression is broadcast to the whole column in dictionary
order and the final records both carry the last specimen's impression. -/
theorem claim_C2_eval :
    extract_clinical_impression reportC2 =
      [("A".data, "Benign.".data), ("B".data, "Malignant.".data)] ∧
    validIdMatch "A".data = false ∧ validIdMatch "B".data = false ∧
    (extract_specimen_details reportC2).map
        (fun rows => rows.map (fun r => (r.sid, r.imprF))) =
      .ok [("A".data, "Malignant.".data), ("B".data, "Malignant.".data)] :=
  ⟨by decide, by decide, by decide, by rfl⟩

/-- Counterexample to claim C3 as stated: in the clinical impression
"#1- one A: two" both tokens resolve to specimen A with span texts
"one" and "two"; the final impression is the concatenation "one two",
not the last span's text "two". -/
theorem claim_C3_counterexample :
    (searchSecAux "CLINICAL IMPRESSION:".data pHdr reportC3).map pyStrip = some bodyC3 ∧
    (spanPairs bodyC3 (idFindall bodyC3)).map (fun p => (cleanId p.1, p.2)) =
      [("1".data, "one".data), ("A".data, "two".data)] ∧
    dget? (specimenMappingOf reportC3) "1".data = some "A".data ∧
    dget? (specimenMappingOf reportC3) "A".data = some "A".data ∧
    (extract_specimen_details reportC3).map
        (fun rows => rows.map (fun r => (r.sid, r.imprF))) =
      .ok [("A".data, "one two".data)] ∧
    ("one two".data : Str) ≠ "two".data :=
  ⟨by decide, by decide, by decide, by decide, by rfl, by decide⟩

/-- Counterexample to claim C6 as stated: on `reportC6` the located
SPECIMEN SUBMITTED body runs past the upper-case "DIAGNOSIS:" header
line (its rule is blank-line-or-end only), and the located CLINICAL
IMPRESSION body runs past a blank line and instead stops at the
lower-case header line "note:" — both differ from the claim's
blank-line / capital-header / end-of-text rule. -/
theorem claim_C6_counterexample :
    (searchSecAux "SPECIMEN SUBMITTED:".data pBlankOrEnd reportC6).map pyStrip =
      some "a\nDIAGNOSIS: x".data ∧
    sectionBodyClaim "SPECIMEN SUBMITTED:".data reportC6 = some "a".data ∧
    (searchSecAux "CLINICAL IMPRESSION:".data pHdr reportC6).map pyStrip =
      some "one\n\ntwo".data ∧
    sectionBodyClaim "CLINICAL IMPRESSION:".data reportC6 = some "one".data ∧
    ("a\nDIAGNOSIS: x".data : Str) ≠ "a".data ∧
    ("one\n\ntwo".data : Str) ≠ "one".data :=
  ⟨by decide, by decide, by decide, by decide, by decide, by decide⟩

/-- Counterexample to claim C7 as stated: no line of the body
"melanoma R. knee" begins with a capital letter and a period, yet the
lettered format is used (the scan is not anchored at line starts) and
the extracted specimen is R/"knee" instead of the synthesized
A/"melanoma R. knee" the claim would require. -/
theorem claim_C7_counterexample :
    (searchSecAux "SPECIMEN SUBMITTED:".data pBlankOrEnd reportC7).map pyStrip =
      some bodyC7 ∧
    (splitNl bodyC7).all (fun l => !(lineStartsLetterDot l)) = true ∧
    (extract_accession_and_specimens_df reportC7).map (fun r => (r.sid, r.sdesc)) =
      [("R".data, "knee".data)] ∧
    ([("R".data, "knee".data)] : List (Str × Str)) ≠
      [("A".data, "melanoma R. knee".data)] :=
  ⟨by decide, by decide, by decide, by decide⟩

/-- Counterexample to claim C8 as stated: the body "foo\n \nbar" has two
non-blank lines but the extractor produces three specimens, one per
line, the middle one with an empty description. -/
theorem claim_C8_counterexample :
    (searchSecAux "SPECIMEN SUBMITTED:".data pBlankOrEnd reportC8).map pyStrip =
      some bodyC8 ∧
    letterDotFindall bodyC8 = [] ∧
    ((splitNl bodyC8).filter (fun l => decide (pyStrip l ≠ []))).length = 2 ∧
    (extract_accession_and_specimens_df reportC8).map (fun r => (r.sid, r.sdesc)) =
      [("A".data, "foo".data), ("B".data, []), ("C".data, "bar".data)] ∧
    (extract_accession_and_specimens_df reportC8).length ≠ 2 :=
  ⟨by decide, by decide, by decide, by decide, by decide⟩

theorem dset_nil_vals (d : PyDict) (k : Str)
    (hd : ∀ p ∈ d, p.2 = ([] : Str)) : ∀ p ∈ dset d k [], p.2 = ([] : Str) := by
  induction d with
  | nil =>
    intro p hp
    simp only [dset, List.mem_singleton] at hp
    simp [hp]
  | cons q d ih =>
    obtain ⟨k0, v0⟩ := q
    intro p hp
    simp only [dset] at hp
    by_cases h : k0 = k
    · rw [if_pos h] at hp
      rcases List.mem_cons.mp hp with h1 | h1
      · simp [h1]
      · exact hd p (List.mem_cons_of_mem _ h1)
    · rw [if_neg h] at hp
      rcases List.mem_cons.mp hp with h1 | h1
      · rw [h1]; exact hd (k0, v0) (List.mem_cons_self _ _)
      · exact ih (fun q hq => hd q (List.mem_cons_of_mem _ hq)) p h1

theorem foldl_init_vals (vs : List Str) (d : PyDict)
    (hd : ∀ p ∈ d, p.2 = ([] : Str)) :
    ∀ p ∈ vs.foldl (fun d v => dset d v []) d, p.2 = ([] : Str) := by
  induction vs generalizing d with
  | nil => exact hd
  | cons v vs ih =>
    intro p hp
    exact ih (dset d v []) (dset_nil_vals d v hd) p hp

theorem spanPairs_fst (cit : Str) (ids : List Str) :
    ∀ pr ∈ spanPairs cit ids, pr.1 ∈ ids := by
  induction ids with
  | nil => intro pr h; simp [spanPairs] at h
  | cons i ids ih =>
    intro pr h
    rcases List.mem_cons.mp h with h1 | h1
    · rw [h1]; exact List.mem_cons_self _ _
    · exact List.mem_cons_of_mem _ (ih pr h1)

theorem applyPairs_unresolved (mapping : PyDict) (ps : List (Str × Str)) (d : PyDict)
    (h : ∀ pr ∈ ps, dget? mapping (cleanId pr.1) = none) :
    applyPairs mapping ps d = d := by
  induction ps generalizing d with
  | nil => rfl
  | cons pr ps ih =>
    have h0 := h pr (List.mem_cons_self _ _)
    simp only [applyPairs, h0]
    exact ih d (fun q hq => h q (List.mem_cons_of_mem _ hq))

/-- Claim C4: when the located clinical-impression section contains zero
detected identifier tokens, every specimen's impression equals the full
(trimmed) section body; likewise, when the located
microscopic-description section has no row match, every row's
microscopic description equals the full (trimmed) body — whatever the
number of specimens. -/
theorem claim_C4 (t : Str) (rows : List PathRow) :
    (∀ gi, searchSecAux "CLINICAL IMPRESSION:".data pHdr t = some gi →
      idFindall (pyStrip gi) = [] →
      ∀ p ∈ extract_clinical_impression t, p.2 = pyStrip gi) ∧
    (∀ gm rows2, searchSecAux "MICROSCOPIC DESCRIPTION:".data pHdr t = some gm →
      microRowMatch (pyStrip gm) = none →
      add_microscopic_description t rows = .ok rows2 →
      ∀ r ∈ rows2, r.microF = pyStrip gm) := by
  constructor
  · intro gi h1 h2 p hp
    unfold extract_clinical_impression at hp
    rw [h1] at hp
    dsimp only [] at hp
    rw [h2] at hp
    simp only [List.map_map, List.mem_map] at hp
    obtain ⟨q, _, hq⟩ := hp
    rw [← hq]
    simp [Function.comp, pyStrip_idem]
  · intro gm rows2 h3 h4 hok r hr
    unfold add_microscopic_description at hok
    rw [h3] at hok
    dsimp only [] at hok
    rw [h4] at hok
    by_cases he : rows.isEmpty = true
    · rw [if_pos he] at hok
      exact Except.noConfusion hok
    · rw [if_neg he] at hok
      injection hok with h2
      rw [← h2] at hr
      simp only [List.mem_map] at hr
      obtain ⟨r0, _, hr0⟩ := hr
      rw [← hr0]

/-- Witness for C4 on a report with five specimens, an untagged
microscopic description and an untagged clinical impression: the third
specimen's impression and microscopic description both equal the full
section bodies. -/
theorem claim_C4_witness :
    (("C".data, "Benign nevus".data) : Str × Str).2 = pyStrip "Benign nevus".data ∧
    (⟨none, "C".data, "s3".data, [], "All unremarkable".data, []⟩ : PathRow).microF =
      pyStrip "All unremarkable\n".data :=
  ⟨(claim_C4 reportC4 []).1 "Benign nevus".data (by decide) (by decide)
      ("C".data, "Benign nevus".data) (by decide),
   (claim_C4 reportC4
        ((extract_accession_and_specimens_df reportC4).map
          (fun s => ⟨s.acc, s.sid, s.sdesc, [], [], []⟩))).2 "All unremarkable\n".data
      [⟨none, "A".data, "s1".data, [], "All unremarkable".data, []⟩,
       ⟨none, "B".data, "s2".data, [], "All unremarkable".data, []⟩,
       ⟨none, "C".data, "s3".data, [], "All unremarkable".data, []⟩,
       ⟨none, "D".data, "s4".data, [], "All unremarkable".data, []⟩,
       ⟨none, "E".data, "s5".data, [], "All unremarkable".data, []⟩]
      (by decide) (by decide) (by rfl)
      ⟨none, "C".data, "s3".data, [], "All unremarkable".data, []⟩ (by decide)⟩

/-- Claim C10: identifier detection in the clinical impression is
case-insensitive; if the located section yields a nonempty token list
but no token's cleaned form is a mapping key, every specimen's
impression is the empty string (the broadcast fallback is suppressed and
every span is dropped). -/
theorem claim_C10 (t gi : Str)
    (h1 : searchSecAux "CLINICAL IMPRESSION:".data pHdr t = some gi)
    (h2 : idFindall (pyStrip gi) ≠ [])
    (h3 : ∀ tok ∈ idFindall (pyStrip gi),
      dget? (specimenMappingOf t) (cleanId tok) = none) :
    ∀ p ∈ extract_clinical_impression t, p.2 = ([] : Str) := by
  intro p hp
  unfold extract_clinical_impression at hp
  rw [h1] at hp
  dsimp only [] at hp
  cases hids : idFindall (pyStrip gi) with
  | nil => exact absurd hids h2
  | cons i0 irest =>
    rw [hids] at hp
    dsimp only [] at hp
    rw [applyPairs_unresolved (specimenMappingOf t) _ _
      (fun pr hpr => by
        have : pr.1 ∈ i0 :: irest := spanPairs_fst (pyStrip gi) (i0 :: irest) pr hpr
        exact h3 pr.1 (by rw [hids]; exact this))] at hp
    simp only [List.mem_map] at hp
    obtain ⟨q, hq0, hq⟩ := hp
    have hq2 : q.2 = ([] : Str) :=
      foldl_init_vals (dvalues (specimenMappingOf t)) [] (by simp) q hq0
    rw [← hq, hq2]
    rfl

/-- Witness for C10: a lowercase token "a)" is detected, suppresses the
broadcast, resolves to nothing, and the sole specimen A's impression is
the empty string (the pair (A, \"\") is the dictionary entry). -/
theorem claim_C10_witness :
    (("A".data, ([] : Str)) : Str × Str).2 = ([] : Str) :=
  claim_C10 reportC10 "a) suspicious".data (by decide) (by decide) (by decide)
    ("A".data, []) (by decide)

theorem synthRows_idx (acc : Option Str) (lines : List Str) :
    ∀ idx, (synthRows acc idx lines).length = lines.length ∧
      ∀ i l, lines[i]? = some l →
        (synthRows acc idx lines)[i]? =
          some (⟨acc, [Char.ofNat (64 + idx + i)], pyStrip l⟩ : SpecRow) := by
  induction lines with
  | nil => intro idx; exact ⟨rfl, by intro i l h; simp at h⟩
  | cons a as ih =>
    intro idx
    refine ⟨by simp [synthRows, (ih (idx + 1)).1], ?_⟩
    intro i l h
    cases i with
    | zero =>
      simp only [List.getElem?_cons_zero, Option.some.injEq] at h
      subst h
      simp [synthRows]
    | succ j =>
      simp only [List.getElem?_cons_succ] at h
      have hj := (ih (idx + 1)).2 j l h
      have harith : 64 + (idx + 1) + j = 64 + idx + (j + 1) := by omega
      simpa [synthRows, harith] using hj

/-- Amended claim C8: when the SPECIMEN SUBMITTED body has no
letter-period match, the extractor synthesizes identifiers `chr(64+i)`
(A, B, C, …) in line order, one specimen per line of the body — blank
lines included — with the trimmed line as description. -/
theorem claim_C8_amended (t g : Str)
    (h1 : searchSecAux "SPECIMEN SUBMITTED:".data pBlankOrEnd t = some g)
    (h2 : letterDotFindall (pyStrip g) = []) :
    (extract_accession_and_specimens_df t).length = (splitNl (pyStrip g)).length ∧
    ∀ i l, (splitNl (pyStrip g))[i]? = some l →
      (extract_accession_and_specimens_df t)[i]? =
        some (⟨searchAcc t, [Char.ofNat (65 + i)], pyStrip l⟩ : SpecRow) := by
  have he : extract_accession_and_specimens_df t =
      synthRows (searchAcc t) 1 (splitNl (pyStrip g)) := by
    unfold extract_accession_and_specimens_df
    rw [h1]
    dsimp only []
    rw [h2]
  rw [he]
  obtain ⟨hl, hg⟩ := synthRows_idx (searchAcc t) (splitNl (pyStrip g)) 1
  refine ⟨hl, fun i l h => ?_⟩
  have := hg i l h
  have harith : 64 + 1 + i = 65 + i := by omega
  rwa [harith] at this

/-- Witness for the amended C8: on the body "foo\n \nbar" the second
line is whitespace-only and still yields specimen B with an empty
description. -/
theorem claim_C8_amended_witness :
    (extract_accession_and_specimens_df reportC8)[1]? =
      some (⟨searchAcc reportC8, [Char.ofNat (65 + 1)], pyStrip " ".data⟩ : SpecRow) :=
  (claim_C8_amended reportC8 "foo\n \nbar".data (by decide) (by decide)).2 1
    " ".data (by decide)

theorem foldl_diagMask_eq (ms : List (Char × Str)) (rs : List PathRow) :
    ms.foldl diagMask rs = rs.map (fun r =>
      match (ms.filter (fun m => decide (r.sid = [m.1]))).getLast? with
      | some m => { r with diagF := m.2 }
      | none => r) := by
  induction ms using List.reverseRecOn with
  | nil => simp
  | append_singleton ms m ih =>
    rw [List.foldl_append, List.foldl_cons, List.foldl_nil, ih]
    unfold diagMask
    rw [List.map_map]
    apply List.map_congr_left
    intro r _
    simp only [Function.comp_apply]
    by_cases hm : r.sid = [m.1]
    · have hfil : List.filter (fun m2 => decide (r.sid = [m2.1])) [m] = [m] := by simp [hm]
      rw [List.filter_append, hfil, List.getLast?_concat]
      cases hfl : (ms.filter (fun m2 => decide (r.sid = [m2.1]))).getLast? with
      | none => simp [hfl, hm]
      | some m2 => simp [hfl, hm]
    · have hfil : List.filter (fun m2 => decide (r.sid = [m2.1])) [m] = [] := by simp [hm]
      rw [List.filter_append, hfil, List.append_nil]
      cases hfl : (ms.filter (fun m2 => decide (r.sid = [m2.1]))).getLast? with
      | none => simp [hfl, hm]
      | some m2 => simp [hfl, hm]

theorem diagMask_ne_nil (rs : List PathRow) (m : Char × Str) (h : rs ≠ []) :
    diagMask rs m ≠ [] := by
  unfold diagMask
  cases rs with
  | nil => exact absurd rfl h
  | cons a l => simp

theorem foldSteps_diagStep_ok (ms : List (Char × Str)) :
    ∀ rs : List PathRow, rs ≠ [] →
      foldSteps diagStep ms rs = .ok (ms.foldl diagMask rs) := by
  induction ms with
  | nil => intro rs h; rfl
  | cons m ms ih =>
    intro rs h
    have he : rs.isEmpty = false := by
      cases rs with
      | nil => exact absurd rfl h
      | cons a l => rfl
    have hds : diagStep rs m = .ok (diagMask rs m) := by
      unfold diagStep
      rw [he]
      simp
    show (match diagStep rs m with
      | .error e => (Except.error e : Except PyErr (List PathRow))
      | .ok rs2 => foldSteps diagStep ms rs2) = .ok ((m :: ms).foldl diagMask rs)
    rw [hds]
    dsimp only []
    rw [List.foldl_cons]
    exact ih (diagMask rs m) (diagMask_ne_nil rs m h)

theorem dget?_dset_self (d : PyDict) (k v : Str) : dget? (dset d k v) k = some v := by
  induction d with
  | nil => simp [dset, dget?]
  | cons q d ih =>
    obtain ⟨k0, v0⟩ := q
    by_cases h : k0 = k
    · simp [dset, dget?, h]
    · simp [dset, dget?, h, ih]

theorem dget?_dset_ne (d : PyDict) (k k2 v : Str) (h : k2 ≠ k) :
    dget? (dset d k2 v) k = dget? d k := by
  induction d with
  | nil => simp [dset, dget?, h]
  | cons q d ih =>
    obtain ⟨k0, v0⟩ := q
    by_cases h0 : k0 = k2
    · subst h0
      simp [dset, dget?, h]
    · have h2 : ¬ (k = k2) := fun hc => h hc.symm
      by_cases h1 : k0 = k
      · simp [dset, dget?, h0, h1, h2]
      · simp [dset, dget?, h0, h1, h2, ih]

theorem applyPairs_dget (mapping : PyDict) (ps : List (Str × Str)) (d : PyDict) (k : Str)
    (hk : dmem d k = true) :
    dget? (applyPairs mapping ps d) k =
      some (((dget? d k).getD []) ++ joinContrib mapping k ps) := by
  induction ps generalizing d with
  | nil =>
    obtain ⟨v, hv⟩ := Option.isSome_iff_exists.mp hk
    simp [applyPairs, joinContrib, hv]
  | cons pr ps ih =>
    cases hres : dget? mapping (cleanId pr.1) with
    | none =>
      have hj : joinContrib mapping k (pr :: ps) = joinContrib mapping k ps := by
        simp [joinContrib, List.filter_cons, hres]
      rw [hj]
      simp only [applyPairs, hres]
      exact ih d hk
    | some mk =>
      by_cases hmk : mk = k
      · subst hmk
        obtain ⟨v, hv⟩ := Option.isSome_iff_exists.mp hk
        have hd2 : dget? (dset d mk (((dget? d mk).getD []) ++ (pyStrip pr.2 ++ [' ']))) mk =
            some (v ++ (pyStrip pr.2 ++ [' '])) := by
          rw [dget?_dset_self, hv]
          rfl
        have hk2 : dmem (dset d mk (((dget? d mk).getD []) ++ (pyStrip pr.2 ++ [' ']))) mk = true := by
          unfold dmem
          rw [dget?_dset_self]
          rfl
        have hj : joinContrib mapping mk (pr :: ps) =
            (pyStrip pr.2 ++ [' ']) ++ joinContrib mapping mk ps := by
          simp [joinContrib, List.filter_cons, hres]
        simp only [applyPairs, hres]
        rw [ih _ hk2, hd2, hj, hv]
        simp [List.append_assoc]
      · have hd2 : dget? (dset d mk (((dget? d mk).getD []) ++ (pyStrip pr.2 ++ [' ']))) k =
            dget? d k := dget?_dset_ne d k mk _ hmk
        have hk2 : dmem (dset d mk (((dget? d mk).getD []) ++ (pyStrip pr.2 ++ [' ']))) k = true := by
          unfold dmem
          rw [hd2]
          exact hk
        have hj : joinContrib mapping k (pr :: ps) = joinContrib mapping k ps := by
          simp [joinContrib, List.filter_cons, hres, hmk]
        rw [hj]
        simp only [applyPairs, hres]
        rw [ih _ hk2, hd2]

/-- Amended claim C3: for the diagnosis, the last span processed wins
(each match is a masked assignment, so the final value is the last
matching span's text); the microscopic-description scanner produces at
most one span, likewise applied by assignment; but for the clinical
impression, span texts resolving to the same specimen are concatenated
in processing order (each stripped, with a trailing space), not
overwritten. -/
theorem claim_C3_amended :
    (∀ (ms : List (Char × Str)) (rs : List PathRow), rs ≠ [] →
      foldSteps diagStep ms rs = .ok (rs.map (fun r =>
        match (ms.filter (fun m => decide (r.sid = [m.1]))).getLast? with
        | some m => { r with diagF := m.2 }
        | none => r))) ∧
    (∀ (t : Str) (rows : List PathRow) (g : Str) (cd : Char × Str),
      searchSecAux "MICROSCOPIC DESCRIPTION:".data pHdr t = some g →
      microRowMatch (pyStrip g) = some cd →
      rows ≠ [] →
      add_microscopic_description t rows =
        .ok (rows.map (fun r => if r.sid = [cd.1] then { r with microF := cd.2 } else r))) ∧
    (∀ (mapping : PyDict) (ps : List (Str × Str)) (d : PyDict) (k : Str),
      dmem d k = true →
      dget? (applyPairs mapping ps d) k =
        some (((dget? d k).getD []) ++ joinContrib mapping k ps)) := by
  refine ⟨?_, ?_, applyPairs_dget⟩
  · intro ms rs h
    rw [foldSteps_diagStep_ok ms rs h, foldl_diagMask_eq]
  · intro t rows g cd h1 h2 hne
    have he : rows.isEmpty = false := by
      cases rows with
      | nil => exact absurd rfl hne
      | cons a l => rfl
    unfold add_microscopic_description
    rw [h1]
    dsimp only []
    rw [h2]
    dsimp only []
    rw [he, if_neg Bool.false_ne_true]

/-- Witness for the amended C3: two diagnosis spans for A end with the
last text; a microscopic row is assigned; two impression spans for A are
concatenated as "one two ". -/
theorem claim_C3_amended_witness :
    (foldSteps diagStep [(('A' : Char), "d1".data), (('A' : Char), "d2".data)]
        [(⟨none, "A".data, "x".data, [], [], []⟩ : PathRow)] =
      .ok [(⟨none, "A".data, "x".data, "d2".data, [], []⟩ : PathRow)]) ∧
    (add_microscopic_description
        "SPECIMEN SUBMITTED: A. x\n\nMICROSCOPIC DESCRIPTION: A. arm - desc".data
        [(⟨none, "A".data, "x".data, [], [], []⟩ : PathRow)] =
      .ok [(⟨none, "A".data, "x".data, [], "desc".data, []⟩ : PathRow)]) ∧
    (dget? (applyPairs [("1".data, "A".data), ("A".data, "A".data)]
        [("#1-".data, "one".data), ("A:".data, "two".data)]
        [("A".data, ([] : Str))]) "A".data =
      some "one two ".data) :=
  ⟨(claim_C3_amended.1 [(('A' : Char), "d1".data), (('A' : Char), "d2".data)]
      [⟨none, "A".data, "x".data, [], [], []⟩] (List.cons_ne_nil _ _)).trans (by rfl),
   (claim_C3_amended.2.1
      "SPECIMEN SUBMITTED: A. x\n\nMICROSCOPIC DESCRIPTION: A. arm - desc".data
      [⟨none, "A".data, "x".data, [], [], []⟩]
      "A. arm - desc".data ('A', "desc".data) (by decide) (by decide)
      (List.cons_ne_nil _ _)).trans (by rfl),
   (claim_C3_amended.2.2 [("1".data, "A".data), ("A".data, "A".data)]
      [("#1-".data, "one".data), ("A:".data, "two".data)]
      [("A".data, ([] : Str))] "A".data (by decide)).trans (by decide)⟩

theorem mem_take_ws (t : Str) (k : Nat) (hk : k ≤ wsCount t) :
    ∀ x ∈ t.take k, isPyWs x = true := by
  induction t generalizing k with
  | nil => intro x hx; simp at hx
  | cons c cs ih =>
    intro x hx
    cases k with
    | zero => simp at hx
    | succ j =>
      by_cases hc : isPyWs c
      · rw [List.take_succ_cons] at hx
        rcases List.mem_cons.mp hx with h | h
        · rw [h]; exact hc
        · refine ih j ?_ x h
          have hwc : wsCount (c :: cs) = wsCount cs + 1 := by
            simp [wsCount, List.takeWhile_cons, hc]
          omega
      · exfalso
        have hwc : wsCount (c :: cs) = 0 := by
          simp [wsCount, List.takeWhile_cons, hc]
        omega

theorem ws_prefix_le_wsCount (w rest : Str) (hw : ∀ x ∈ w, isPyWs x = true) :
    w.length ≤ wsCount (w ++ rest) := by
  induction w with
  | nil => simp
  | cons c cs ih =>
    have hc := hw c (List.mem_cons_self _ _)
    have hwc : wsCount ((c :: cs) ++ rest) = wsCount (cs ++ rest) + 1 := by
      simp [wsCount, List.takeWhile_cons, hc]
    rw [List.length_cons, hwc]
    have := ih (fun x hx => hw x (List.mem_cons_of_mem _ hx))
    omega

theorem descCheck_some_shape (t : Str) (k k2 : Nat) (d : Str)
    (h : descCheck t k = some (k2, d)) :
    k2 = k ∧ ∃ c u, t.drop k = c :: u ∧ c ≠ '\n' ∧
      d = (c :: u).takeWhile (fun x => decide (x ≠ '\n')) := by
  unfold descCheck at h
  cases hd : t.drop k with
  | nil => rw [hd] at h; simp at h
  | cons c u =>
    rw [hd] at h
    dsimp only [] at h
    by_cases hc : c = '\n'
    · rw [if_pos hc] at h; simp at h
    · rw [if_neg hc] at h
      simp only [Option.some.injEq, Prod.mk.injEq] at h
      exact ⟨h.1.symm, c, u, rfl, hc, h.2.symm⟩

theorem descPickGo_isSome_iff (t : Str) (K : Nat) :
    (descPickGo t K).isSome = true ↔ ∃ k ≤ K, (descCheck t k).isSome = true := by
  induction K with
  | zero =>
    constructor
    · intro h
      exact ⟨0, Nat.le_refl 0, by simpa [descPickGo] using h⟩
    · rintro ⟨k, hk, h⟩
      have hk0 : k = 0 := Nat.le_zero.mp hk
      subst hk0
      simpa [descPickGo] using h
  | succ K ih =>
    constructor
    · intro h
      unfold descPickGo at h
      cases hc : descCheck t (K + 1) with
      | some r => exact ⟨K + 1, Nat.le_refl _, by simp [hc]⟩
      | none =>
        rw [hc] at h
        obtain ⟨k, hk, h2⟩ := ih.mp h
        exact ⟨k, Nat.le_succ_of_le hk, h2⟩
    · rintro ⟨k, hk, h⟩
      unfold descPickGo
      cases hc : descCheck t (K + 1) with
      | some r => simp
      | none =>
        apply ih.mpr
        refine ⟨k, ?_, h⟩
        rcases Nat.lt_or_ge k (K + 1) with hlt | hge
        · omega
        · exfalso
          have hkk : k = K + 1 := by omega
          rw [hkk, hc] at h
          simp at h

theorem descPick_isSome_iff (t : Str) :
    (descPick t).isSome = true ↔ wsThenChar t := by
  unfold descPick
  rw [descPickGo_isSome_iff]
  constructor
  · rintro ⟨k, hk, h⟩
    obtain ⟨r, hr⟩ := Option.isSome_iff_exists.mp h
    obtain ⟨k2, d⟩ := r
    obtain ⟨-, c, u, hdrop, hc, -⟩ := descCheck_some_shape t k k2 d hr
    refine ⟨t.take k, c, u, ?_, mem_take_ws t k hk, hc⟩
    rw [← hdrop]
    exact (List.take_append_drop k t).symm
  · rintro ⟨w, c, u, ht, hw, hc⟩
    refine ⟨w.length, ?_, ?_⟩
    · rw [ht]
      exact ws_prefix_le_wsCount w (c :: u) hw
    · have hdrop : t.drop w.length = c :: u := by
        rw [ht, List.drop_left]
      unfold descCheck
      rw [hdrop]
      dsimp only []
      rw [if_neg hc]
      simp

theorem descPickGo_no_nl (t : Str) (K : Nat) :
    ∀ k d, descPickGo t K = some (k, d) → ∀ c ∈ d, c ≠ '\n' := by
  induction K with
  | zero =>
    intro k d h
    simp only [descPickGo] at h
    obtain ⟨-, c, u, -, -, hd⟩ := descCheck_some_shape t 0 k d h
    intro x hx
    rw [hd] at hx
    simpa using List.mem_takeWhile_imp hx
  | succ K ih =>
    intro k d h
    simp only [descPickGo] at h
    cases hc : descCheck t (K + 1) with
    | some r =>
      rw [hc] at h
      simp only [Option.some.injEq] at h
      obtain ⟨-, c, u, -, -, hd⟩ := descCheck_some_shape t (K + 1) k d (by rw [hc, h])
      intro x hx
      rw [hd] at hx
      simpa using List.mem_takeWhile_imp hx
    | none =>
      rw [hc] at h
      exact ih k d h

theorem ldTryAt_shape (s : Str) (r : Char × Str × Nat) (h : ldTryAt s = some r) :
    ∃ t k, s = r.1 :: '.' :: t ∧ r.1.isUpper = true ∧ descPick t = some (k, r.2.1) := by
  cases s with
  | nil => simp [ldTryAt] at h
  | cons a s1 =>
    cases s1 with
    | nil => simp [ldTryAt] at h
    | cons c t =>
      unfold ldTryAt at h
      dsimp only [] at h
      by_cases hac : (a.isUpper && decide (c = '.')) = true
      · rw [if_pos hac] at h
        simp only [Bool.and_eq_true, decide_eq_true_eq] at hac
        obtain ⟨ha, hc⟩ := hac
        cases hdp : descPick t with
        | none => rw [hdp] at h; simp at h
        | some kd =>
          rw [hdp] at h
          simp only [Option.some.injEq] at h
          subst h
          exact ⟨t, kd.1, by rw [hc], ha, by rw [hdp]⟩
      · rw [if_neg hac] at h
        simp at h

theorem ldTryAt_isSome_of (s : Str) (h : ldOccursAt s 0) : (ldTryAt s).isSome = true := by
  obtain ⟨a, t, hs, ha, hw⟩ := h
  have hs2 : s = a :: '.' :: t := by simpa using hs
  subst hs2
  unfold ldTryAt
  dsimp only []
  have hac : (a.isUpper && decide (('.' : Char) = '.')) = true := by simp [ha]
  rw [if_pos hac]
  have hiss := (descPick_isSome_iff t).mpr hw
  obtain ⟨kd, hkd⟩ := Option.isSome_iff_exists.mp hiss
  rw [hkd]
  rfl

theorem letterDotAux_sound (f : Nat) :
    ∀ s : Str, letterDotAux f s ≠ [] → ∃ p, ldOccursAt s p := by
  induction f with
  | zero => intro s h; simp [letterDotAux] at h
  | succ f ih =>
    intro s h
    cases s with
    | nil => simp [letterDotAux] at h
    | cons a s1 =>
      cases htry : ldTryAt (a :: s1) with
      | some r =>
        obtain ⟨t, k, hs, ha, hdp⟩ := ldTryAt_shape _ _ htry
        refine ⟨0, r.1, t, by simpa using hs, ha, ?_⟩
        exact (descPick_isSome_iff t).mp (by rw [hdp]; rfl)
      | none =>
        have h2 : letterDotAux f s1 ≠ [] := by
          simpa [letterDotAux, htry] using h
        obtain ⟨p, hp⟩ := ih s1 h2
        exact ⟨p + 1, hp⟩

theorem letterDotAux_complete :
    ∀ (s : Str) (p : Nat), ldOccursAt s p → letterDotAux s.length s ≠ [] := by
  intro s
  induction s with
  | nil =>
    intro p hp
    obtain ⟨a, t, hs, -, -⟩ := hp
    simp at hs
  | cons a s1 ih =>
    intro p hp
    cases htry : ldTryAt (a :: s1) with
    | some r => simp [letterDotAux, htry]
    | none =>
      have hred : letterDotAux (a :: s1).length (a :: s1) = letterDotAux s1.length s1 := by
        simp [letterDotAux, htry]
      rw [hred]
      cases p with
      | zero =>
        exfalso
        have hsome := ldTryAt_isSome_of (a :: s1) hp
        rw [htry] at hsome
        simp at hsome
      | succ q => exact ih q hp

theorem letterDotAux_mem (f : Nat) :
    ∀ (s : Str) (m : Char × Str), m ∈ letterDotAux f s →
      m.1.isUpper = true ∧ ∀ c ∈ m.2, c ≠ '\n' := by
  induction f with
  | zero => intro s m hm; simp [letterDotAux] at hm
  | succ f ih =>
    intro s m hm
    cases s with
    | nil => simp [letterDotAux] at hm
    | cons a s1 =>
      cases htry : ldTryAt (a :: s1) with
      | some r =>
        rw [show letterDotAux (f + 1) (a :: s1) =
            (r.1, r.2.1) :: letterDotAux f ((a :: s1).drop r.2.2) from by
          simp [letterDotAux, htry]] at hm
        rcases List.mem_cons.mp hm with h | h
        · obtain ⟨t, k, hs, ha, hdp⟩ := ldTryAt_shape _ _ htry
          subst h
          exact ⟨ha, descPickGo_no_nl t (wsCount t) k r.2.1 hdp⟩
        · exact ih _ m h
      | none =>
        rw [show letterDotAux (f + 1) (a :: s1) = letterDotAux f s1 from by
          simp [letterDotAux, htry]] at hm
        exact ih s1 m hm

theorem letterDotFindall_ne_nil_iff (s : Str) :
    letterDotFindall s ≠ [] ↔ ∃ p, ldOccursAt s p := by
  constructor
  · exact letterDotAux_sound s.length s
  · rintro ⟨p, hp⟩
    exact letterDotAux_complete s p hp

/-- Amended claim C7: the lettered format is used if and only if the
body contains, at any position, a capital letter immediately followed by
a period with a completable description (optional whitespace, then a
non-newline character); every match has a capital-letter identifier and
a newline-free description; and the extracted specimens are exactly the
matches in scan order, descriptions trimmed. -/
theorem claim_C7_amended (t g : Str)
    (h1 : searchSecAux "SPECIMEN SUBMITTED:".data pBlankOrEnd t = some g) :
    ((letterDotFindall (pyStrip g) ≠ []) ↔ ∃ p, ldOccursAt (pyStrip g) p) ∧
    (∀ m ∈ letterDotFindall (pyStrip g),
      m.1.isUpper = true ∧ ∀ c ∈ m.2, c ≠ '\n') ∧
    (∀ m ms, letterDotFindall (pyStrip g) = m :: ms →
      extract_accession_and_specimens_df t =
        (m :: ms).map (fun x => (⟨searchAcc t, [x.1], pyStrip x.2⟩ : SpecRow))) := by
  refine ⟨letterDotFindall_ne_nil_iff _,
    fun m hm => letterDotAux_mem _ _ m hm, ?_⟩
  intro m ms hms
  unfold extract_accession_and_specimens_df
  rw [h1]
  dsimp only []
  rw [hms]

/-- Witness for the amended C7: on "melanoma R. knee" (match not at a
line start) the extractor output equals the mapped match list, i.e. the
single specimen R/"knee". -/
theorem claim_C7_amended_witness :
    extract_accession_and_specimens_df reportC7 =
      [(⟨none, "R".data, "knee".data⟩ : SpecRow)] :=
  ((claim_C7_amended reportC7 "melanoma R. knee".data (by decide)).2.2
    (('R' : Char), "knee".data) [] (by decide)).trans (by decide)

theorem firstIdxFrom_eq_range (P : Str → Bool) (s : Str) :
    firstIdxFrom P s = ((List.range (s.length + 1)).filter (fun i => P (s.drop i))).head? := by
  induction s with
  | nil =>
    show (if P [] then some 0 else none) = _
    by_cases h : P []
    · simp [h, List.range_succ]
    · simp [h]
  | cons c cs ih =>
    show (if P (c :: cs) then some 0 else (firstIdxFrom P cs).map (· + 1)) = _
    have hr : List.range ((c :: cs).length + 1) =
        0 :: (List.range (cs.length + 1)).map (· + 1) := by
      rw [List.length_cons]
      exact List.range_succ_eq_map (cs.length + 1)
    rw [hr, List.filter_cons]
    by_cases h : P (c :: cs)
    · simp [h]
    · have hp0 : (fun i => P ((c :: cs).drop i)) 0 = false := by
        simpa using h
      simp only [hp0, Bool.false_eq_true, if_false, h, List.filter_map, List.head?_map]
      rw [ih]
      congr 2

theorem firstOccCI_eq (lit t : Str) :
    firstOccCI lit t = firstIdxFrom (startsWithCI lit) t :=
  (firstIdxFrom_eq_range (startsWithCI lit) t).symm

theorem minStopIdx_cons (P : Str → Bool) (b0 : Char) (bs : Str) :
    minStopIdx P (b0 :: bs) = (firstIdxFrom P bs).map (· + 1) := by
  unfold minStopIdx
  rw [show (b0 :: bs).length + 1 = (bs.length + 1) + 1 from by simp]
  rw [List.range_succ_eq_map (bs.length + 1), List.filter_cons]
  have hp0 : (decide (1 ≤ 0) && P ((b0 :: bs).drop 0)) = false := by simp
  simp only [hp0, Bool.false_eq_true, if_false, List.filter_map, List.head?_map]
  rw [firstIdxFrom_eq_range]
  congr 2
  apply List.filter_congr
  intro i _
  simp [Function.comp]

theorem firstIdxFrom_isSome (P : Str → Bool) (hP : P [] = true) (s : Str) :
    (firstIdxFrom P s).isSome = true := by
  induction s with
  | nil => simp [firstIdxFrom, hP]
  | cons c cs ih =>
    by_cases h : P (c :: cs) <;> simp [firstIdxFrom, h, ih]

theorem attemptK_none_of_ge (P : Str → Bool) (r : Str) (k : Nat) (h : r.length ≤ k) :
    attemptK P r k = none := by
  unfold attemptK
  rw [List.drop_eq_nil_of_le h]

theorem attemptK_isSome_of_lt (P : Str → Bool) (hP : P [] = true) (r : Str) (k : Nat)
    (h : k < r.length) : (attemptK P r k).isSome = true := by
  unfold attemptK
  cases hd : r.drop k with
  | nil =>
    exfalso
    have := List.drop_eq_nil_iff.mp hd
    omega
  | cons b bs =>
    have hiss := firstIdxFrom_isSome P hP bs
    obtain ⟨i, hi⟩ := Option.isSome_iff_exists.mp hiss
    simp only [List.tail_cons, hi]
    rfl

theorem tryKsGo_eq (P : Str → Bool) (hP : P [] = true) (r : Str) (hr : r ≠ []) :
    ∀ W, tryKsGo P r W = attemptK P r (min W (r.length - 1)) := by
  have hlen : 1 ≤ r.length := by
    cases r with
    | nil => exact absurd rfl hr
    | cons a as => simp
  intro W
  induction W with
  | zero => simp [tryKsGo]
  | succ W ih =>
    unfold tryKsGo
    by_cases h : W + 1 < r.length
    · have hs := attemptK_isSome_of_lt P hP r (W + 1) h
      obtain ⟨g, hg⟩ := Option.isSome_iff_exists.mp hs
      rw [hg]
      have hm : min (W + 1) (r.length - 1) = W + 1 := by omega
      rw [hm, hg]
    · have hn : attemptK P r (W + 1) = none := attemptK_none_of_ge P r (W + 1) (by omega)
      rw [hn, ih]
      have hm : min W (r.length - 1) = min (W + 1) (r.length - 1) := by omega
      rw [hm]

theorem startsWithCI_length (lit : Str) :
    ∀ s, startsWithCI lit s = true → lit.length ≤ s.length := by
  induction lit with
  | nil => intro s _; simp
  | cons p ps ih =>
    intro s h
    cases s with
    | nil => simp [startsWithCI] at h
    | cons c cs =>
      simp only [startsWithCI, Bool.and_eq_true] at h
      have := ih cs h.2
      simp only [List.length_cons]
      omega

theorem searchSecAux_short (lit : Str) (P : Str → Bool) :
    ∀ s : Str, s.length < lit.length → searchSecAux lit P s = none := by
  intro s
  induction s with
  | nil => intro _; rfl
  | cons c cs ih =>
    intro h
    unfold searchSecAux
    have hsw : startsWithCI lit (c :: cs) = false := by
      cases hq : startsWithCI lit (c :: cs) with
      | true =>
        exfalso
        have := startsWithCI_length lit (c :: cs) hq
        simp only [List.length_cons] at h this
        omega
      | false => rfl
    rw [if_neg (by simp [hsw])]
    exact ih (by simp only [List.length_cons] at h; omega)

theorem searchSecAux_eq_spec (lit : Str) (P : Str → Bool) (hP : P [] = true)
    (hlit : lit ≠ []) :
    ∀ t : Str, (searchSecAux lit P t).map pyStrip = sectionBodySpec lit P t := by
  intro t
  induction t with
  | nil =>
    have h0 : startsWithCI lit [] = false := by
      cases lit with
      | nil => exact absurd rfl hlit
      | cons p ps => rfl
    have hocc : firstOccCI lit [] = none := by
      rw [firstOccCI_eq]
      show (if startsWithCI lit [] = true then some 0 else none) = none
      rw [h0]
      rfl
    unfold sectionBodySpec
    rw [hocc]
    rfl
  | cons c cs ih =>
    by_cases hsw : startsWithCI lit (c :: cs) = true
    · have hocc : firstOccCI lit (c :: cs) = some 0 := by
        rw [firstOccCI_eq]
        show (if startsWithCI lit (c :: cs) = true then some 0 else
          (firstIdxFrom (startsWithCI lit) cs).map (· + 1)) = some 0
        rw [if_pos hsw]
      by_cases hre : (c :: cs).drop lit.length = []
      · have hlz : lazyBody P ((c :: cs).drop lit.length) = none := by
          rw [hre]
          rfl
        have hlen := startsWithCI_length lit (c :: cs) hsw
        have hlencc := List.drop_eq_nil_iff.mp hre
        have hcs : searchSecAux lit P cs = none := by
          apply searchSecAux_short
          simp only [List.length_cons] at hlen hlencc
          omega
        have hL : searchSecAux lit P (c :: cs) = none := by
          unfold searchSecAux
          rw [if_pos hsw, hlz]
          exact hcs
        rw [hL]
        unfold sectionBodySpec
        rw [hocc]
        dsimp only []
        rw [Nat.zero_add, hre]
        rfl
      · have hrlen : 1 ≤ ((c :: cs).drop lit.length).length := by
          cases hr2 : (c :: cs).drop lit.length with
          | nil => exact absurd hr2 hre
          | cons x xs => simp [hr2]
        have hlz := tryKsGo_eq P hP ((c :: cs).drop lit.length) hre
          (wsCount ((c :: cs).drop lit.length))
        have hk : min (wsCount ((c :: cs).drop lit.length))
            (((c :: cs).drop lit.length).length - 1) <
            ((c :: cs).drop lit.length).length := by omega
        cases hb : ((c :: cs).drop lit.length).drop
            (min (wsCount ((c :: cs).drop lit.length))
              (((c :: cs).drop lit.length).length - 1)) with
        | nil =>
          exfalso
          have := List.drop_eq_nil_iff.mp hb
          omega
        | cons b0 bs =>
          obtain ⟨i, hi⟩ := Option.isSome_iff_exists.mp (firstIdxFrom_isSome P hP bs)
          have hatt : attemptK P ((c :: cs).drop lit.length)
              (min (wsCount ((c :: cs).drop lit.length))
                (((c :: cs).drop lit.length).length - 1)) =
              some ((b0 :: bs).take (i + 1)) := by
            unfold attemptK
            rw [hb]
            dsimp only []
            rw [show (b0 :: bs).tail = bs from rfl, hi]
          have hlz2 : lazyBody P ((c :: cs).drop lit.length) =
              attemptK P ((c :: cs).drop lit.length)
                (min (wsCount ((c :: cs).drop lit.length))
                  (((c :: cs).drop lit.length).length - 1)) := hlz
          have hL : searchSecAux lit P (c :: cs) = some ((b0 :: bs).take (i + 1)) := by
            unfold searchSecAux
            rw [if_pos hsw, hlz2, hatt]
          rw [hL]
          unfold sectionBodySpec
          rw [hocc]
          dsimp only []
          rw [Nat.zero_add]
          rw [if_neg (by simpa using hre)]
          rw [hb, minStopIdx_cons, hi]
          rfl
    · have hsw2 : startsWithCI lit (c :: cs) = false := by
        cases hq : startsWithCI lit (c :: cs) with
        | true => exact absurd hq hsw
        | false => rfl
      have hocc : firstOccCI lit (c :: cs) = (firstOccCI lit cs).map (· + 1) := by
        rw [firstOccCI_eq, firstOccCI_eq]
        show (if startsWithCI lit (c :: cs) = true then some 0 else
          (firstIdxFrom (startsWithCI lit) cs).map (· + 1)) = _
        rw [if_neg hsw]
      have hL : searchSecAux lit P (c :: cs) = searchSecAux lit P cs := by
        conv_lhs => unfold searchSecAux
        rw [if_neg hsw]
      rw [hL, ih]
      unfold sectionBodySpec
      rw [hocc]
      cases ho : firstOccCI lit cs with
      | none => rfl
      | some p =>
        dsimp only [Option.map]
        have hdrop : (c :: cs).drop (p + 1 + lit.length) = cs.drop (p + lit.length) := by
          rw [show p + 1 + lit.length = (p + lit.length) + 1 from by omega]
          rfl
        rw [hdrop]

/-- Amended claim C6: the code's actual section boundaries, stated
declaratively.  For each locator the body begins at the first
non-whitespace character after the first case-insensitive occurrence of
the header (at the last remaining character when only whitespace
follows; no section when nothing follows), and ends at the least
position at least one character in whose suffix satisfies that
locator's stop: for SPECIMEN SUBMITTED a blank line or end of text; for
CLINICAL IMPRESSION and MICROSCOPIC DESCRIPTION a newline followed by a
nonempty run of letters of either case and spaces and a colon, or end
of text (also just before a final newline).  DIAGNOSIS has no locator
in the code. -/
theorem claim_C6_amended (t : Str) :
    (searchSecAux "SPECIMEN SUBMITTED:".data pBlankOrEnd t).map pyStrip =
      sectionBodySpec "SPECIMEN SUBMITTED:".data pBlankOrEnd t ∧
    (searchSecAux "CLINICAL IMPRESSION:".data pHdr t).map pyStrip =
      sectionBodySpec "CLINICAL IMPRESSION:".data pHdr t ∧
    (searchSecAux "MICROSCOPIC DESCRIPTION:".data pHdr t).map pyStrip =
      sectionBodySpec "MICROSCOPIC DESCRIPTION:".data pHdr t :=
  ⟨searchSecAux_eq_spec _ pBlankOrEnd (by decide) (by decide) t,
   searchSecAux_eq_spec _ pHdr (by decide) (by decide) t,
   searchSecAux_eq_spec _ pHdr (by decide) (by decide) t⟩
